import Mathlib

/-!
Verification of the odh-linter rule-validation engine.

This file embeds, as Lean definitions, the parts of the odh-linter sources
that the checked properties are about:

* the violation model and severity vocabulary
  (bundle-linters/pkg/rules/types.go);
* the reporter's comparator and sort
  (bundle-linters/pkg/reporter/reporter.go);
* rule selection and exit-code derivation
  (bundle-linters/cmd/odhlint-bundle/main.go);
* the bundle data model, the loader's routing and abort discipline
  (bundle-linters/pkg/loader/loader.go);
* the eight bundle rules (bundle-linters/pkg/rules/olm*.go);
* the errordemote analyzer: its structural pattern predicate and its
  comment-window suppression scan (linters/errordemote).

Modelling conventions:
* Go strings are Lean `String`; Go `int` is `Int`; Go maps used as sets or
  string maps are association lists.
* Values decoded from YAML are the inductive `Yaml`; the external YAML
  parser itself is not modelled: where the loader invokes it, the embedding
  carries the parse outcome (`Except String _`) as data.
* Go float64 payloads are modelled as rationals with exact comparison; the
  only float the checked properties touch is an exact zero or an exact 100.
* `sort.Slice` is an (unspecified, in-place) comparison sort; it is
  modelled as an insertion sort with the same comparator.  Every property
  proved or refuted about it below holds for any deterministic comparison
  sort.
* A Go panic (out-of-range `token.File.Line`) is `Except.error ()`.
* String literals built by `fmt.Sprintf` are reproduced by concatenation;
  single-quote characters around interpolated names are elided from
  message texts.
-/

/-! ## Violation and rule model (pkg/rules/types.go) -/

/-- Go `type Severity string` with constants `error`, `warning`, `info`. -/
abbrev Severity := String

def severityError : Severity := "error"
def severityWarning : Severity := "warning"
def severityInfo : Severity := "info"

/-- Go `type Category string`. -/
abbrev Category := String

def categoryOLMRequirement : Category := "OLM-Requirement"
def categoryOLMBestPractice : Category := "OLM-Best-Practice"
def categorySecurity : Category := "OLM-Security"
def categoryUpgrade : Category := "OLM-Upgrade"

/-- The `Violation` record of pkg/rules/types.go, field for field. -/
structure Violation where
  RuleID : String
  RuleName : String
  Category : Category
  Severity : Severity
  Message : String
  File : String
  Line : Int
  Description : String
  Fixable : Bool
deriving DecidableEq, Repr

/-- The identity/classification part of the `Rule` interface.  The
`Validate` method is dispatched separately (`ruleValidateById`), mirroring
Go interface dispatch on the concrete rule type. -/
structure Rule where
  id : String
  name : String
  category : Category
  severity : Severity
  fixable : Bool
deriving DecidableEq, Repr

/-! ## Reporter comparator and sort (pkg/reporter/reporter.go) -/

/-- `severityWeight` from reporter.go: error 3, warning 2, info 1,
anything else 0 (the `default` arm of the Go switch). -/
def severityWeight (s : Severity) : Int :=
  if s == "error" then 3
  else if s == "warning" then 2
  else if s == "info" then 1
  else 0

/-- Go string comparison: lexicographic on the code points (for UTF-8
encoded text Go byte order and code-point order agree). -/
def charListLt : List Char → List Char → Bool
  | _, [] => false
  | [], _ :: _ => true
  | a :: as, b :: bs =>
    if a.toNat < b.toNat then true
    else if b.toNat < a.toNat then false
    else charListLt as bs

def strLt (a b : String) : Bool := charListLt a.data b.data

/-- The closure passed to `sort.Slice` in `Reporter.Report`: severity
weight descending, then file ascending, then rule ID ascending. -/
def violationLess (a b : Violation) : Bool :=
  if a.Severity != b.Severity then
    decide (severityWeight b.Severity < severityWeight a.Severity)
  else if a.File != b.File then
    strLt a.File b.File
  else
    strLt a.RuleID b.RuleID

/-- `a` may precede `b` in a list sorted by `violationLess`:
`b` is not strictly less than `a`. -/
def violationLE (a b : Violation) : Bool := !(violationLess b a)

/-- One insertion step of the comparison sort modelling `sort.Slice`. -/
def insertViolation (a : Violation) : List Violation → List Violation
  | [] => [a]
  | b :: l => if violationLE a b then a :: b :: l else b :: insertViolation a l

/-- The permutation `Reporter.Report` applies to its violation slice:
a comparison sort by `violationLess`. -/
def sortViolations : List Violation → List Violation
  | [] => []
  | a :: l => insertViolation a (sortViolations l)

/-! ## Rule selection and exit code (cmd/odhlint-bundle/main.go) -/

/-- `parseRuleList`: split on commas, trim, drop empties.  The Go function
returns a set (`map[string]bool`); membership below is list membership. -/
def parseRuleList (list : String) : List String :=
  if list == "" then []
  else ((list.splitOn ",").map String.trim).filter (fun t => t != "")

/-- `selectRules`, parameterised by the registry it draws from (the Go
function reads it from `rules.GetAllRules()`). -/
def selectRulesFrom (allRules : List Rule) (enable disable : String) : List Rule :=
  if enable != "" then
    allRules.filter (fun r => (parseRuleList enable).contains r.id)
  else if disable != "" then
    allRules.filter (fun r => !((parseRuleList disable).contains r.id))
  else
    allRules

/-- `hasErrors` from main.go. -/
def hasErrors (violations : List Violation) : Bool :=
  violations.any (fun v => v.Severity == severityError)

/-- `hasWarnings` from main.go. -/
def hasWarnings (violations : List Violation) : Bool :=
  violations.any (fun v => v.Severity == severityWarning)

/-- The error count computed by `Reporter.ReportSummary`; the summary
returns a Go error exactly when it is positive. -/
def summaryErrorCount (violations : List Violation) : Nat :=
  violations.countP (fun v => v.Severity == severityError)

/-- `Reporter.ReportSummary` fails (returns a non-nil error) iff the list
holds at least one error-severity violation. -/
def reportSummaryFails (violations : List Violation) : Bool :=
  decide (0 < summaryErrorCount violations)

/-- The exit-status derivation at the end of `main`: start at 0, set 1 on
`hasErrors`, leave 0 for warnings, and bump 0 to 1 if `ReportSummary`
failed. -/
def deriveExitCode (violations : List Violation) (noWarnings : Bool) : Nat :=
  let ec : Nat :=
    if hasErrors violations then 1
    else if !noWarnings && hasWarnings violations then 0
    else 0
  if reportSummaryFails violations then (if ec == 0 then 1 else ec) else ec

/-! ## Bundle data model (pkg/rules/types.go) -/

/-- A value decoded from YAML (`interface{}` in Go).  `yother` stands for
any shape the checked code matches only through a `default` arm
(maps, sequences, ...). -/
inductive Yaml where
  | yint (n : Int)
  | yfloat (q : ℚ)
  | ystr (s : String)
  | ybool (b : Bool)
  | ynull
  | yother

structure Metadata where
  Name : String
  Namespace : String
  Annotations : List (String × String)
  Labels : List (String × String)

/-- Go field `Type` is spelled `type` here (`Type` is a Lean keyword). -/
structure InstallMode where
  type : String
  Supported : Bool

structure WebhookRule where
  APIGroups : List String
  APIVersions : List String
  Operations : List String
  Resources : List String

/-- Go field `Type` is spelled `type` here (`Type` is a Lean keyword). -/
structure WebhookDefinition where
  type : String
  AdmissionReviewVersions : List String
  DeploymentName : String
  FailurePolicy : String
  GenerateName : String
  Rules : List WebhookRule
  SideEffects : String
  WebhookPath : String
  ConversionCRDs : List String

structure CRDReference where
  Name : String
  Version : String
  Kind : String

structure Container where
  Name : String
  Image : String
  Command : List String
  Args : List String

structure PodSpec where
  Containers : List Container

structure PodTemplateSpec where
  Spec : PodSpec

structure DeploymentSpec where
  Template : PodTemplateSpec

structure Deployment where
  Name : String
  Spec : DeploymentSpec

structure InstallSpec where
  Deployments : List Deployment

structure CSVInstall where
  Strategy : String
  Spec : InstallSpec

structure CSVCustomResourceDefinitions where
  Owned : List CRDReference
  Required : List CRDReference

structure CSVSpec where
  MinKubeVersion : String
  InstallModes : List InstallMode
  WebhookDefinitions : List WebhookDefinition
  CustomResourceDefinitions : CSVCustomResourceDefinitions
  Install : CSVInstall

structure ClusterServiceVersion where
  FilePath : String
  APIVersion : String
  Kind : String
  Metadata : Metadata
  Spec : CSVSpec

structure CRDNames where
  Kind : String
  Plural : String
  Singular : String

structure CRDVersion where
  Name : String
  Served : Bool
  Storage : Bool

structure ServiceReference where
  Name : String
  Namespace : String
  Path : String

structure WebhookClientConfig where
  Service : Option ServiceReference

structure CRDConversionWebhook where
  ClientConfig : Option WebhookClientConfig

structure CRDConversion where
  Strategy : String
  Webhook : Option CRDConversionWebhook

structure CRDSpec where
  Group : String
  Names : CRDNames
  Versions : List CRDVersion
  PreserveUnknownFields : Option Bool
  Conversion : Option CRDConversion

structure CustomResourceDefinition where
  FilePath : String
  APIVersion : String
  Kind : String
  Metadata : Metadata
  Spec : CRDSpec

/-- A generic resource: metadata header plus an untyped field tree
(`Spec map[string]interface{}`), modelled as an association list. -/
structure Resource where
  FilePath : String
  APIVersion : String
  Kind : String
  Metadata : Metadata
  Spec : List (String × Yaml)

structure BundleAnnotations where
  FilePath : String
  MediaType : String
  Manifests : String
  Metadata : String
  Package : String
  Channels : List String
  DefaultChannel : String

structure Bundle where
  Path : String
  ManifestsPath : String
  MetadataPath : String
  CSV : Option ClusterServiceVersion
  CRDs : List CustomResourceDefinition
  OtherResources : List Resource
  Annotations : Option BundleAnnotations

/-! ## Bundle rules (pkg/rules/olm00*.go)

Violation literals are anonymous constructors in field order
`RuleID, RuleName, Category, Severity, Message, File, Line, Description,
Fixable`; `Line` is 0 (the Go zero value, the literals never set it). -/

/-- ODH-OLM-001 `MinKubeVersionRule.Validate`. -/
def minKubeVersionValidate (b : Bundle) : List Violation :=
  match b.CSV with
  | none => []
  | some csv =>
    if csv.Spec.MinKubeVersion == "" then
      [⟨"ODH-OLM-001", "missing-minkubeversion", categoryOLMBestPractice, severityWarning,
        "ClusterServiceVersion is missing spec.minKubeVersion field", csv.FilePath, 0,
        "It is recommended to specify the minimum Kubernetes version your operator supports. This prevents installation on incompatible clusters.",
        false⟩]
    else []

def containsWildcard (groups : List String) : Bool :=
  groups.any (fun g => g == "*")

def containsOperatorGroup (groups : List String) : Bool :=
  groups.any (fun g => g == "operators.coreos.com")

def containsWebhookConfigResources (resources : List String) : Bool :=
  resources.any (fun r =>
    r.toLower == "validatingwebhookconfigurations" ||
    r.toLower == "mutatingwebhookconfigurations")

/-- The up-to-three violations one webhook rule contributes in
ODH-OLM-002, in source order. -/
def webhookRuleViolations (csvFile whName : String) (rule : WebhookRule) : List Violation :=
  (if containsWildcard rule.APIGroups then
    [⟨"ODH-OLM-002", "webhook-intercepts-operator-resources", categoryOLMRequirement,
      severityError,
      "Webhook " ++ whName ++ " intercepts all API groups (apiGroups: [*]). OLM will fail the CSV.",
      csvFile, 0,
      "Webhooks cannot intercept all API groups. This would prevent OLM from managing other operators.",
      false⟩]
   else []) ++
  (if containsOperatorGroup rule.APIGroups then
    [⟨"ODH-OLM-002", "webhook-intercepts-operator-resources", categoryOLMRequirement,
      severityError,
      "Webhook " ++ whName ++ " intercepts the operators.coreos.com API group. OLM will fail the CSV.",
      csvFile, 0,
      "Webhooks cannot intercept the operators.coreos.com group. This would break OLMs ability to manage operators.",
      false⟩]
   else []) ++
  (if containsWebhookConfigResources rule.Resources then
    [⟨"ODH-OLM-002", "webhook-intercepts-operator-resources", categoryOLMRequirement,
      severityError,
      "Webhook " ++ whName ++ " intercepts ValidatingWebhookConfigurations or MutatingWebhookConfigurations resources. OLM will fail the CSV.",
      csvFile, 0,
      "Webhooks cannot intercept webhook configuration resources. This would break OLMs ability to configure webhooks.",
      false⟩]
   else [])

/-- ODH-OLM-002 `WebhookOperatorResourcesRule.Validate`. -/
def webhookOperatorResourcesValidate (b : Bundle) : List Violation :=
  match b.CSV with
  | none => []
  | some csv =>
    (csv.Spec.WebhookDefinitions.filter (fun w => w.type != "ConversionWebhook")).flatMap
      (fun w => w.Rules.flatMap (webhookRuleViolations csv.FilePath w.GenerateName))

/-- ODH-OLM-003 `ConversionWebhookAllNamespacesRule.Validate`. -/
def conversionWebhookAllNamespacesValidate (b : Bundle) : List Violation :=
  match b.CSV with
  | none => []
  | some csv =>
    let hasConversionWebhook :=
      csv.Spec.WebhookDefinitions.any (fun w => w.type == "ConversionWebhook")
    if !hasConversionWebhook then []
    else
      let allNamespacesSupported :=
        csv.Spec.InstallModes.any (fun m => m.type == "AllNamespaces" && m.Supported)
      if !allNamespacesSupported then
        [⟨"ODH-OLM-003", "conversion-webhook-requires-allnamespaces", categoryOLMRequirement,
          severityError,
          "CSV defines conversion webhook but AllNamespaces install mode is not supported",
          csv.FilePath, 0,
          "OLM requires AllNamespaces install mode for operators with conversion webhooks. Set installModes[type=AllNamespaces].supported = true",
          true⟩]
      else []

/-- `strings.TrimSpace`: strip whitespace from both ends. -/
def trimSpace (s : String) : String :=
  ⟨((s.data.dropWhile Char.isWhitespace).reverse.dropWhile Char.isWhitespace).reverse⟩

/-- `isZeroValue` from olm004: the Go `int` and `int64` arms collapse into
`yint`; the `float64` arm is the exact comparison `v == 0`. -/
def isZeroValue (v : Yaml) : Bool :=
  match v with
  | .yint n => n == 0
  | .yfloat q => q == 0
  | .ystr s => trimSpace s == "0" || trimSpace s == "0%"
  | _ => false

/-- The violation ODH-OLM-004 emits for one offending resource. -/
def pdbMaxViolation (r : Resource) : Violation :=
  ⟨"ODH-OLM-004", "pdb-maxunavailable-zero", categoryUpgrade, severityError,
   "PodDisruptionBudget " ++ r.Metadata.Name ++ " has maxUnavailable set to 0 or 0%",
   r.FilePath, 0,
   "Setting maxUnavailable to 0 or 0% prevents node drains and can block cluster lifecycle operations. Use a value >= 1.",
   false⟩

/-- ODH-OLM-004 `PDBMaxUnavailableRule.Validate`. -/
def pdbMaxUnavailableValidate (b : Bundle) : List Violation :=
  b.OtherResources.flatMap (fun r =>
    if r.Kind != "PodDisruptionBudget" then []
    else
      match r.Spec.lookup "maxUnavailable" with
      | some v => if isZeroValue v then [pdbMaxViolation r] else []
      | none => [])

/-- `isHundredPercent` from olm005. -/
def isHundredPercent (v : Yaml) : Bool :=
  match v with
  | .ystr s => trimSpace s == "100%" || trimSpace s == "100"
  | .yint n => n == 100
  | .yfloat q => q == 100
  | _ => false

/-- ODH-OLM-005 `PDBMinAvailableRule.Validate`. -/
def pdbMinAvailableValidate (b : Bundle) : List Violation :=
  b.OtherResources.flatMap (fun r =>
    if r.Kind != "PodDisruptionBudget" then []
    else
      match r.Spec.lookup "minAvailable" with
      | some v =>
        if isHundredPercent v then
          [⟨"ODH-OLM-005", "pdb-minavailable-hundred-percent", categoryUpgrade, severityError,
            "PodDisruptionBudget " ++ r.Metadata.Name ++ " has minAvailable set to 100%",
            r.FilePath, 0,
            "Setting minAvailable to 100% prevents node drains and can block cluster lifecycle operations. Use a lower percentage.",
            false⟩]
        else []
      | none => [])

/-- `isTrueValue` from olm006. -/
def isTrueValue (v : Yaml) : Bool :=
  match v with
  | .ybool b => b
  | .ystr s => s == "true" || s == "True" || s == "TRUE"
  | _ => false

/-- ODH-OLM-006 `PriorityClassGlobalDefaultRule.Validate`. -/
def priorityClassGlobalDefaultValidate (b : Bundle) : List Violation :=
  b.OtherResources.flatMap (fun r =>
    if r.Kind != "PriorityClass" then []
    else
      match r.Spec.lookup "globalDefault" with
      | some v =>
        if isTrueValue v then
          [⟨"ODH-OLM-006", "priorityclass-globaldefault-true", categorySecurity, severityError,
            "PriorityClass " ++ r.Metadata.Name ++ " has globalDefault set to true",
            r.FilePath, 0,
            "PriorityClass globalDefault should be false in operator bundles. Setting it to true affects all pods cluster-wide.",
            true⟩]
        else []
      | none => [])

def recommendedPrefixes : List String :=
  ["stable", "fast", "candidate", "preview", "alpha", "beta"]

/-- ODH-OLM-007 `ChannelNamingRule.Validate`. -/
def channelNamingValidate (b : Bundle) : List Violation :=
  match b.Annotations with
  | none => []
  | some ann =>
    ann.Channels.flatMap (fun channel =>
      let hasRecommended :=
        recommendedPrefixes.any (fun p => channel.toLower.startsWith p)
      if !hasRecommended then
        [⟨"ODH-OLM-007", "channel-naming-convention", categoryOLMBestPractice, severityWarning,
          "Channel " ++ channel ++ " does not follow recommended naming conventions",
          ann.FilePath, 0,
          "Consider using a channel name starting with: " ++
            String.intercalate ", " recommendedPrefixes ++
            ". This helps users understand the support level and maturity.",
          false⟩]
      else [])

/-- ODH-OLM-010 `ConversionPreserveUnknownFieldsRule.Validate`. -/
def conversionPreserveUnknownFieldsValidate (b : Bundle) : List Violation :=
  match b.CSV with
  | none => []
  | some csv =>
    let conversionCRDs :=
      (csv.Spec.WebhookDefinitions.filter (fun w => w.type == "ConversionWebhook")).flatMap
        (fun w => w.ConversionCRDs)
    if conversionCRDs.isEmpty then []
    else
      b.CRDs.flatMap (fun crd =>
        let crdFullName := crd.Spec.Names.Plural ++ "." ++ crd.Spec.Group
        if !(conversionCRDs.contains crdFullName) then []
        else
          match crd.Spec.PreserveUnknownFields with
          | some true =>
            [⟨"ODH-OLM-010", "conversion-webhook-preserve-unknown-fields",
              categoryOLMRequirement, severityError,
              "CRD " ++ crdFullName ++ " is targeted by conversion webhook but has preserveUnknownFields=true",
              crd.FilePath, 0,
              "CRDs used with conversion webhooks must have spec.preserveUnknownFields set to false or nil. Set it to false.",
              true⟩]
          | _ => [])

/-! ## Registry (pkg/rules/registry.go) -/

def minKubeVersionRule : Rule :=
  ⟨"ODH-OLM-001", "missing-minkubeversion", categoryOLMBestPractice, severityWarning, false⟩
def webhookOperatorResourcesRule : Rule :=
  ⟨"ODH-OLM-002", "webhook-intercepts-operator-resources", categoryOLMRequirement, severityError, false⟩
def conversionWebhookAllNamespacesRule : Rule :=
  ⟨"ODH-OLM-003", "conversion-webhook-requires-allnamespaces", categoryOLMRequirement, severityError, true⟩
def pdbMaxUnavailableRule : Rule :=
  ⟨"ODH-OLM-004", "pdb-maxunavailable-zero", categoryUpgrade, severityError, false⟩
def pdbMinAvailableRule : Rule :=
  ⟨"ODH-OLM-005", "pdb-minavailable-hundred-percent", categoryUpgrade, severityError, false⟩
def priorityClassGlobalDefaultRule : Rule :=
  ⟨"ODH-OLM-006", "priorityclass-globaldefault-true", categorySecurity, severityError, true⟩
def channelNamingRule : Rule :=
  ⟨"ODH-OLM-007", "channel-naming-convention", categoryOLMBestPractice, severityWarning, false⟩
def conversionPreserveUnknownFieldsRule : Rule :=
  ⟨"ODH-OLM-010", "conversion-webhook-preserve-unknown-fields", categoryOLMRequirement, severityError, true⟩

/-- `GetAllRules` from registry.go, in source order. -/
def GetAllRules : List Rule :=
  [minKubeVersionRule, webhookOperatorResourcesRule, conversionWebhookAllNamespacesRule,
   pdbMaxUnavailableRule, pdbMinAvailableRule, priorityClassGlobalDefaultRule,
   channelNamingRule, conversionPreserveUnknownFieldsRule]

/-- Dispatch of the `Validate` method on the concrete rule, keyed by the
rule identifier. -/
def ruleValidateById (id : String) (b : Bundle) : List Violation :=
  if id == "ODH-OLM-001" then minKubeVersionValidate b
  else if id == "ODH-OLM-002" then webhookOperatorResourcesValidate b
  else if id == "ODH-OLM-003" then conversionWebhookAllNamespacesValidate b
  else if id == "ODH-OLM-004" then pdbMaxUnavailableValidate b
  else if id == "ODH-OLM-005" then pdbMinAvailableValidate b
  else if id == "ODH-OLM-006" then priorityClassGlobalDefaultValidate b
  else if id == "ODH-OLM-007" then channelNamingValidate b
  else if id == "ODH-OLM-010" then conversionPreserveUnknownFieldsValidate b
  else []

/-- `ValidateBundle` from registry.go: run every selected rule, concatenate. -/
def ValidateBundle (b : Bundle) (rs : List Rule) : List Violation :=
  rs.flatMap (fun r => ruleValidateById r.id b)

/-! ## Loader (pkg/loader/loader.go)

The filesystem and the YAML parser are external collaborators; a bundle
directory is therefore embedded as data carrying, for each manifest file,
the outcomes the parser would hand the loader.  What is modelled from the
source is everything the loader itself does with those outcomes: routing
on `kind`, skipping of directories and non-YAML names, last-CSV-wins,
appends, and the abort-on-first-error discipline. -/

structure BasicHeader where
  apiVersion : String
  kind : String

/-- One directory entry of the manifests directory.  `basic` is the
outcome of `os.ReadFile` plus the `apiVersion`/`kind` unmarshal; `asCSV`,
`asCRD` and `asResource` are the outcomes of the three typed decoders on
the same bytes. -/
structure ManifestFile where
  name : String
  isDir : Bool
  basic : Except String BasicHeader
  asCSV : Except String ClusterServiceVersion
  asCRD : Except String CustomResourceDefinition
  asResource : Except String Resource

/-- The bundle directory as the loader observes it: whether the root
resolves, the manifests directory listing (`none` when the directory is
missing), and the annotations file (`none` when absent — tolerated — else
its parse outcome). -/
structure BundleDir where
  path : String
  rootExists : Bool
  manifestsDir : Option (List ManifestFile)
  annotations : Option (Except String BundleAnnotations)

def isOkE {ε α : Type} (e : Except ε α) : Bool :=
  match e with
  | .ok _ => true
  | .error _ => false

/-- The loop filter in `loadManifests`: skip sub-directories and names
without a `.yaml`/`.yml` suffix. -/
def shouldProcess (f : ManifestFile) : Bool :=
  !f.isDir && (f.name.endsWith ".yaml" || f.name.endsWith ".yml")

def bundleSetAnnotations (b : Bundle) (a : BundleAnnotations) : Bundle :=
  ⟨b.Path, b.ManifestsPath, b.MetadataPath, b.CSV, b.CRDs, b.OtherResources, some a⟩

def bundleSetCSV (b : Bundle) (c : ClusterServiceVersion) : Bundle :=
  ⟨b.Path, b.ManifestsPath, b.MetadataPath, some c, b.CRDs, b.OtherResources, b.Annotations⟩

def bundleAddCRD (b : Bundle) (c : CustomResourceDefinition) : Bundle :=
  ⟨b.Path, b.ManifestsPath, b.MetadataPath, b.CSV, b.CRDs ++ [c], b.OtherResources, b.Annotations⟩

def bundleAddResource (b : Bundle) (r : Resource) : Bundle :=
  ⟨b.Path, b.ManifestsPath, b.MetadataPath, b.CSV, b.CRDs, b.OtherResources ++ [r], b.Annotations⟩

/-- `loadManifestFile`: read and parse the header, then route on `kind`.
A CSV replaces any earlier one (last parsed wins); CRDs and generic
resources are appended. -/
def loadManifestFile (b : Bundle) (f : ManifestFile) : Except String Bundle :=
  match f.basic with
  | .error e => .error ("failed to parse YAML: " ++ e)
  | .ok h =>
    if h.kind == "ClusterServiceVersion" then
      match f.asCSV with
      | .error e => .error ("failed to parse CSV: " ++ e)
      | .ok csv => .ok (bundleSetCSV b csv)
    else if h.kind == "CustomResourceDefinition" then
      match f.asCRD with
      | .error e => .error ("failed to parse CRD: " ++ e)
      | .ok crd => .ok (bundleAddCRD b crd)
    else
      match f.asResource with
      | .error e => .error ("failed to parse resource: " ++ e)
      | .ok res => .ok (bundleAddResource b res)

/-- The `for _, file := range files` loop of `loadManifests`: skip
directories and non-YAML names, abort on the first failing file. -/
def loadManifestsLoop (files : List ManifestFile) (b : Bundle) : Except String Bundle :=
  match files with
  | [] => .ok b
  | f :: fs =>
    if shouldProcess f then
      match loadManifestFile b f with
      | .error e => .error e
      | .ok b2 => loadManifestsLoop fs b2
    else loadManifestsLoop fs b

/-- `loadManifests`: fatal when the manifests directory is missing, else
the loop over the listing. -/
def loadManifests (d : BundleDir) (b : Bundle) : Except String Bundle :=
  match d.manifestsDir with
  | none => .error ("manifests directory not found: " ++ b.ManifestsPath)
  | some files => loadManifestsLoop files b

/-- `loadAnnotations`: absence of the file is tolerated; a parse failure
is fatal. -/
def loadAnnotations (d : BundleDir) (b : Bundle) : Except String Bundle :=
  match d.annotations with
  | none => .ok b
  | some (.error e) => .error ("failed to load annotations: " ++ e)
  | some (.ok a) => .ok (bundleSetAnnotations b a)

/-- `LoadBundle`: root existence check, then annotations, then manifests;
any failure aborts the whole load with an error and no `Bundle`. -/
def LoadBundle (d : BundleDir) : Except String Bundle :=
  if !d.rootExists then
    .error ("bundle path does not exist: " ++ d.path)
  else
    let b0 : Bundle :=
      ⟨d.path, d.path ++ "/manifests", d.path ++ "/metadata", none, [], [], none⟩
    match loadAnnotations d b0 with
    | .error e => .error e
    | .ok b1 => loadManifests d b1

/-- A processed manifest file loads cleanly: its header parses and the
decoder its `kind` routes to succeeds. -/
def routeOk (f : ManifestFile) : Bool :=
  match f.basic with
  | .error _ => false
  | .ok h =>
    if h.kind == "ClusterServiceVersion" then isOkE f.asCSV
    else if h.kind == "CustomResourceDefinition" then isOkE f.asCRD
    else isOkE f.asResource

/-- A directory entry does not abort the load: it is skipped or it routes
cleanly. -/
def fileOk (f : ManifestFile) : Bool :=
  !shouldProcess f || routeOk f

/-- The annotations stage does not abort the load. -/
def annotationsOk (d : BundleDir) : Bool :=
  match d.annotations with
  | none => true
  | some o => isOkE o

/-- The manifests stage does not abort the load. -/
def manifestsOk (d : BundleDir) : Bool :=
  match d.manifestsDir with
  | none => false
  | some files => files.all fileOk

/-! ## errordemote analyzer (linters/errordemote)

The host supplies a typed syntax tree; the fragment below covers the node
shapes the analyzer distinguishes.  `leaf` stands for any other node: the
analyzer only ever matches it through failing type assertions or treats it
as an uninteresting subtree. -/

/-- Go AST fragment.  `binary` carries the operator token as a string
(`==` for `token.EQL`, `!=` for `token.NEQ`, anything else otherwise);
`assign` carries whether the token is `token.DEFINE` (`:=`). -/
inductive Node where
  | ident (name : String)
  | binary (op : String) (x y : Node)
  | call (fn : Node) (args : List Node)
  | selector (recv : Node) (sel : String)
  | assign (define : Bool) (lhs rhs : List Node)
  | ifS (ini : Option Node) (cond : Node) (thenB : Node) (elseB : Option Node)
  | ret (results : List Node)
  | block (stmts : List Node)
  | exprStmt (e : Node)
  | leaf
deriving Repr

/-- `strings.Contains` on the characters of the strings. -/
def strContains (s pat : String) : Bool :=
  decide (pat.toList <:+: s.toList)

/-- The closed log-like selector set of `containsLogCall`. -/
def logMethods : List String :=
  ["Info", "Debug", "Warn", "Warning", "Trace", "V"]

/-- Does this node, by itself, match `containsLogCall`: a call whose
function is a selector with a log-like name? -/
def isLogCallNode (n : Node) : Bool :=
  match n with
  | .call (.selector _ sel) _ => logMethods.contains sel
  | _ => false

/-- Is this an identifier whose spelling contains `err`? -/
def isErrIdent (n : Node) : Bool :=
  match n with
  | .ident s => strContains s "err"
  | _ => false

/-- Does this node, by itself, match `containsErrorReturn`: a return
statement with a result identifier containing `err`? -/
def isErrReturnNode (n : Node) : Bool :=
  match n with
  | .ret results => results.any isErrIdent
  | _ => false

mutual
/-- The subtree scan of `containsLogCall` (`ast.Inspect`). -/
def nodeHasLogCall : Node → Bool
  | .ident _ => false
  | .binary _ x y => nodeHasLogCall x || nodeHasLogCall y
  | .call fn args =>
    isLogCallNode (.call fn args) || nodeHasLogCall fn || nodesHaveLogCall args
  | .selector recv _ => nodeHasLogCall recv
  | .assign _ lhs rhs => nodesHaveLogCall lhs || nodesHaveLogCall rhs
  | .ifS ini cond thenB elseB =>
    optHasLogCall ini || nodeHasLogCall cond || nodeHasLogCall thenB || optHasLogCall elseB
  | .ret results => nodesHaveLogCall results
  | .block stmts => nodesHaveLogCall stmts
  | .exprStmt e => nodeHasLogCall e
  | .leaf => false

def nodesHaveLogCall : List Node → Bool
  | [] => false
  | n :: ns => nodeHasLogCall n || nodesHaveLogCall ns

def optHasLogCall : Option Node → Bool
  | none => false
  | some n => nodeHasLogCall n
end

mutual
/-- The subtree scan of `containsErrorReturn` (`ast.Inspect`). -/
def nodeHasErrReturn : Node → Bool
  | .ident _ => false
  | .binary _ x y => nodeHasErrReturn x || nodeHasErrReturn y
  | .call fn args => nodeHasErrReturn fn || nodesHaveErrReturn args
  | .selector recv _ => nodeHasErrReturn recv
  | .assign _ lhs rhs => nodesHaveErrReturn lhs || nodesHaveErrReturn rhs
  | .ifS ini cond thenB elseB =>
    optHasErrReturn ini || nodeHasErrReturn cond || nodeHasErrReturn thenB || optHasErrReturn elseB
  | .ret results =>
    isErrReturnNode (.ret results) || nodesHaveErrReturn results
  | .block stmts => nodesHaveErrReturn stmts
  | .exprStmt e => nodeHasErrReturn e
  | .leaf => false

def nodesHaveErrReturn : List Node → Bool
  | [] => false
  | n :: ns => nodeHasErrReturn n || nodesHaveErrReturn ns

def optHasErrReturn : Option Node → Bool
  | none => false
  | some n => nodeHasErrReturn n
end

/-- `isNilIdent`. -/
def isNilIdent (n : Node) : Bool :=
  match n with
  | .ident s => s == "nil"
  | _ => false

/-- `isErrCondition`: an equality/inequality whose one operand is the
`nil` identifier and whose other side mentions an `err`-named identifier
(the Go code tests the two disjunctions independently). -/
def isErrCondition (cond : Node) : Bool :=
  match cond with
  | .binary op x y =>
    (op == "==" || op == "!=") &&
    (isNilIdent y || isNilIdent x) &&
    (isErrIdent x || isErrIdent y)
  | _ => false

/-- `isErrorDemotionPattern`, clause for clause in source order. -/
def isErrorDemotionPattern (n : Node) : Bool :=
  match n with
  | .ifS ini cond _thenB elseB =>
    match ini with
    | some (.assign true lhs _rhs) =>
      decide (2 ≤ lhs.length) &&
      (match lhs.getLast? with
       | some (.ident nm) => strContains nm "err" || nm == "_"
       | _ => false) &&
      isErrCondition cond &&
      elseB.isSome &&
      (match elseB with
       | some e => nodeHasLogCall e && !(nodeHasErrReturn e)
       | none => false)
    | _ => false
  | _ => false

/-! ## Suppression scan (hasNolintComment / hasResilienceDoc)

A `token.Pos` is embedded as the index of the `token.File` holding it plus
the line within that file.  `token.File.Line` applied to a position of a
different file panics (out-of-range position); a panic is `.error ()`. -/

structure Pos where
  file : Nat
  line : Int
deriving DecidableEq, Repr

structure Comment where
  pos : Pos
  text : String
deriving DecidableEq, Repr

/-- One file of the pass: its comment list (`ast.File.Comments`,
flattened across comment groups). -/
structure FileAst where
  comments : List Comment
deriving DecidableEq, Repr

/-- The analysis pass: `pass.Files` in package order. -/
structure Pass where
  files : List FileAst
deriving DecidableEq, Repr

/-- `file.Line(p)` where `file` is the `token.File` at index `fidx`:
the line when `p` belongs to that file, a panic otherwise. -/
def fileLine (fidx : Nat) (p : Pos) : Except Unit Int :=
  if p.file == fidx then .ok p.line else .error ()

/-- The text test of `hasNolintComment`: the rule-qualified directive, or
a bare directive with no colon-qualified name at all. -/
def nolintTextMatch (text : String) : Bool :=
  strContains text "nolint:errordemote" ||
  (strContains text "nolint" && !strContains text "nolint:")

/-- The loop body of `hasNolintComment` over the first file's comments:
line computation first (it can panic), then the `[L-1, L]` window, then
the text test. -/
def scanNolint (fidx : Nat) (line : Int) : List Comment → Except Unit Bool
  | [] => .ok false
  | c :: rest =>
    match fileLine fidx c.pos with
    | .error e => .error e
    | .ok cl =>
      if (cl == line || cl == line - 1) && nolintTextMatch c.text then .ok true
      else scanNolint fidx line rest

/-- `hasNolintComment`: scans the comments of `pass.Files[0]`, whatever
file the candidate position belongs to. -/
def hasNolintComment (pass : Pass) (pos : Pos) : Except Unit Bool :=
  match pass.files with
  | [] => .error ()
  | f0 :: _ => scanNolint pos.file pos.line f0.comments

/-- The justification vocabulary of `hasResilienceDoc`. -/
def resilienceKeywords : List String :=
  ["resilience:", "resilient:", "non-critical", "optional",
   "safe to ignore", "safe to continue", "safe default", "may not exist"]

/-- The text test of `hasResilienceDoc`, on the lower-cased comment. -/
def resilienceTextMatch (text : String) : Bool :=
  resilienceKeywords.any (fun k => strContains text.toLower k)

/-- The loop body of `hasResilienceDoc`: window `[L-3, L-1]`
(`commentLine >= line-3 && commentLine < line`). -/
def scanResilience (fidx : Nat) (line : Int) : List Comment → Except Unit Bool
  | [] => .ok false
  | c :: rest =>
    match fileLine fidx c.pos with
    | .error e => .error e
    | .ok cl =>
      if (line - 3 ≤ cl && cl < line : Bool) && resilienceTextMatch c.text then .ok true
      else scanResilience fidx line rest

/-- `hasResilienceDoc`: also scans only `pass.Files[0]`. -/
def hasResilienceDoc (pass : Pass) (pos : Pos) : Except Unit Bool :=
  match pass.files with
  | [] => .error ()
  | f0 :: _ => scanResilience pos.file pos.line f0.comments

/-- The per-if-statement body of `run`: report iff the structural pattern
matches and neither suppression scan fires. -/
def reportsViolation (pass : Pass) (s : Node) (pos : Pos) : Except Unit Bool :=
  if isErrorDemotionPattern s then
    match hasNolintComment pass pos with
    | .error e => .error e
    | .ok true => .ok false
    | .ok false =>
      match hasResilienceDoc pass pos with
      | .error e => .error e
      | .ok r => .ok (!r)
  else .ok false

/-! ## Subtree occurrence

`ast.Inspect` visits every node of a subtree.  `children` lists the
direct children of a node; `Occurs m n` says `m` is a node of the subtree
rooted at `n`.  These are specification-side notions used to state what
the two subtree scans compute. -/

def children : Node → List Node
  | .ident _ => []
  | .binary _ x y => [x, y]
  | .call fn args => fn :: args
  | .selector recv _ => [recv]
  | .assign _ lhs rhs => lhs ++ rhs
  | .ifS ini cond thenB elseB => ini.toList ++ [cond, thenB] ++ elseB.toList
  | .ret results => results
  | .block stmts => stmts
  | .exprStmt e => [e]
  | .leaf => []

inductive Occurs : Node → Node → Prop where
  | refl (n : Node) : Occurs n n
  | child {m c n : Node} : c ∈ children n → Occurs m c → Occurs m n

/-! ## Specification-side predicates and concrete witnesses -/

/-- No two distinct violations of the list are tied under the reporter
comparator. -/
def NoTies (l : List Violation) : Prop :=
  ∀ x ∈ l, ∀ y ∈ l, x ≠ y → violationLess x y = true ∨ violationLess y x = true

/-- Clause (1)-(2) of the claim on the detector: the initializer is a
short-form declaration binding at least two names whose last name contains
`err` or is the discard name. -/
def C1InitOk (ini : Node) : Prop :=
  ∃ lhs rhs nm, ini = Node.assign true lhs rhs ∧ 2 ≤ lhs.length ∧
    lhs.getLast? = some (Node.ident nm) ∧ (strContains nm "err" = true ∨ nm = "_")

/-- Clause (3): an equality or inequality test between literal `nil` and
an identifier containing `err`, in either operand order. -/
def C1CondOk (cond : Node) : Prop :=
  ∃ op en, (op = "==" ∨ op = "!=") ∧ strContains en "err" = true ∧
    (cond = Node.binary op (Node.ident "nil") (Node.ident en) ∨
     cond = Node.binary op (Node.ident en) (Node.ident "nil"))

/-- Clause (5): the subtree holds a call whose selector is log-like. -/
def C1ElseLogs (e : Node) : Prop :=
  ∃ m, Occurs m e ∧ isLogCallNode m = true

/-- Clause (6) negated part: the subtree holds a return statement
returning an identifier containing `err`. -/
def C1ElseReturnsErr (e : Node) : Prop :=
  ∃ m, Occurs m e ∧ isErrReturnNode m = true

/-- The claim on the detector, conjunct for conjunct. -/
def C1Spec (n : Node) : Prop :=
  ∃ ini cond thenB elseBody,
    n = Node.ifS (some ini) cond thenB (some elseBody) ∧
    C1InitOk ini ∧ C1CondOk cond ∧ C1ElseLogs elseBody ∧ ¬ C1ElseReturnsErr elseBody

/-- A generic resource the claim says ODH-OLM-004 must flag: disruption
budget kind with a `maxUnavailable` field normalising to zero. -/
def pdbZeroTarget (r : Resource) : Bool :=
  r.Kind == "PodDisruptionBudget" &&
  (match r.Spec.lookup "maxUnavailable" with
   | some v => isZeroValue v
   | none => false)

/-- A loader-shaped bundle with no CSV, CRDs, annotations or generic
resources. -/
def emptyBundle : Bundle := ⟨"", "", "", none, [], [], none⟩

/-- Two violations agreeing on severity, file and rule ID but differing in
message: tied under the reporter comparator. -/
def tiedViolationA : Violation :=
  ⟨"ODH-OLM-004", "pdb-maxunavailable-zero", "OLM-Upgrade", "error", "message one",
   "manifests/pdb.yaml", 0, "", false⟩

def tiedViolationB : Violation :=
  ⟨"ODH-OLM-004", "pdb-maxunavailable-zero", "OLM-Upgrade", "error", "message two",
   "manifests/pdb.yaml", 0, "", false⟩

/-- Two untied violations, for instantiating the amended sort property. -/
def sevDemoA : Violation :=
  ⟨"ODH-OLM-001", "missing-minkubeversion", "OLM-Best-Practice", "warning", "m",
   "manifests/csv.yaml", 0, "", false⟩

def sevDemoB : Violation :=
  ⟨"ODH-OLM-004", "pdb-maxunavailable-zero", "OLM-Upgrade", "error", "m",
   "manifests/pdb.yaml", 0, "", false⟩

/-- A statement matching the error-demotion pattern:
`if value, err := f(); err == nil { use(value) } else { log.Info(err) }`. -/
def demoPatternNode : Node :=
  .ifS (some (.assign true [.ident "value", .ident "err"] [.leaf]))
    (.binary "==" (.ident "err") (.ident "nil"))
    (.block [.exprStmt (.call (.ident "use") [.ident "value"])])
    (some (.block [.exprStmt (.call (.selector (.ident "log") "Info") [.ident "err"])]))

def demoNolintComment : Comment :=
  ⟨⟨0, 9⟩, "//nolint:errordemote // safe to skip"⟩

/-- A single-file pass with a rule-qualified directive one line above the
candidate. -/
def demoSingleFilePass : Pass := ⟨[⟨[demoNolintComment]⟩]⟩

def demoCandidatePos : Pos := ⟨0, 10⟩

/-- A directive comment in the second file of a pass, one line above the
candidate of that same file. -/
def demoOtherFileComment : Comment :=
  ⟨⟨1, 9⟩, "//nolint:errordemote // safe to skip"⟩

def demoTwoFilePass : Pass := ⟨[⟨[]⟩, ⟨[demoOtherFileComment]⟩]⟩

def demoSecondFilePos : Pos := ⟨1, 10⟩

/-- How many candidate violations the detector yields at one visited
if-statement: one on a structural match, none otherwise (`run` calls
`pass.Reportf` at most once per node, after the suppression scans). -/
def candidateReports (n : Node) : Nat :=
  if isErrorDemotionPattern n then 1 else 0

/-! ## Helper lemmas: the reporter comparator as an order -/

theorem charListLt_irrefl : ∀ l, charListLt l l = false
  | [] => rfl
  | a :: as => by simp [charListLt, charListLt_irrefl as]

theorem charListLt_asymm : ∀ {l₁ l₂ : List Char},
    charListLt l₁ l₂ = true → charListLt l₂ l₁ = false
  | [], [], h => by simp [charListLt] at h
  | [], _ :: _, _ => rfl
  | _ :: _, [], h => by simp [charListLt] at h
  | a :: as, b :: bs, h => by
    by_cases h1 : a.toNat < b.toNat
    · have h2 : ¬ b.toNat < a.toNat := by omega
      simp [charListLt, h1, h2] at h ⊢
    · by_cases h2 : b.toNat < a.toNat
      · simp [charListLt, h1, h2] at h
      · simp [charListLt, h1, h2] at h ⊢
        exact charListLt_asymm h

theorem charListLt_trans : ∀ {l₁ l₂ l₃ : List Char},
    charListLt l₁ l₂ = true → charListLt l₂ l₃ = true → charListLt l₁ l₃ = true
  | _, _, [], _, h2 => by simp [charListLt] at h2
  | _, [], _ :: _, h1, _ => by simp [charListLt] at h1
  | [], _ :: _, _ :: _, _, _ => rfl
  | a :: as, b :: bs, c :: cs, h1, h2 => by
    by_cases hab : a.toNat < b.toNat
    · by_cases hbc : b.toNat < c.toNat
      · simp [charListLt]
        omega
      · by_cases hcb : c.toNat < b.toNat
        · simp [charListLt, hbc, hcb] at h2
        · simp [charListLt]
          omega
    · by_cases hba : b.toNat < a.toNat
      · simp [charListLt, hab, hba] at h1
      · simp [charListLt, hab, hba] at h1
        by_cases hbc : b.toNat < c.toNat
        · simp [charListLt]
          omega
        · by_cases hcb : c.toNat < b.toNat
          · simp [charListLt, hbc, hcb] at h2
          · simp [charListLt, hbc, hcb] at h2
            have hac : ¬ a.toNat < c.toNat := by omega
            have hca : ¬ c.toNat < a.toNat := by omega
            simp [charListLt, hac, hca]
            exact charListLt_trans h1 h2

theorem strLt_irrefl (s : String) : strLt s s = false := charListLt_irrefl s.data

theorem strLt_asymm {s t : String} (h : strLt s t = true) : strLt t s = false :=
  charListLt_asymm h

theorem strLt_trans {s t u : String} (h1 : strLt s t = true) (h2 : strLt t u = true) :
    strLt s u = true := charListLt_trans h1 h2

theorem violationLess_irrefl (a : Violation) : violationLess a a = false := by
  simp [violationLess, strLt_irrefl]

theorem violationLess_asymm {a b : Violation} (h : violationLess a b = true) :
    violationLess b a = false := by
  by_cases hs : a.Severity = b.Severity
  · by_cases hf : a.File = b.File
    · simp [violationLess, hs, hf] at h ⊢
      exact strLt_asymm h
    · simp [violationLess, hs, hf, Ne.symm hf] at h ⊢
      exact strLt_asymm h
  · simp [violationLess, hs, Ne.symm hs] at h ⊢
    exact le_of_lt h

theorem violationLess_trans {a b c : Violation}
    (h1 : violationLess a b = true) (h2 : violationLess b c = true) :
    violationLess a c = true := by
  by_cases hab : a.Severity = b.Severity
  · by_cases hbc : b.Severity = c.Severity
    · -- same severity throughout: lexicographic on (File, RuleID)
      have hac : a.Severity = c.Severity := hab.trans hbc
      by_cases haf : a.File = b.File
      · by_cases hbf : b.File = c.File
        · have hacf : a.File = c.File := haf.trans hbf
          simp [violationLess, hab, haf, hbc, hbf, hac, hacf] at h1 h2 ⊢
          exact strLt_trans h1 h2
        · have hacf : a.File ≠ c.File := haf ▸ hbf
          simp [violationLess, hab, haf, hbc, Ne.symm hbf, hbf, hac, hacf, Ne.symm hacf] at h1 h2 ⊢
          exact haf ▸ h2
      · by_cases hbf : b.File = c.File
        · have hacf : a.File ≠ c.File := fun h => haf (h.trans hbf.symm)
          simp [violationLess, hab, Ne.symm haf, haf, hbc, hbf, hac, hacf, Ne.symm hacf] at h1 h2 ⊢
          exact hbf ▸ h1
        · by_cases hacf : a.File = c.File
          · simp [violationLess, hab, Ne.symm haf, haf, hbc, Ne.symm hbf, hbf] at h1 h2
            have := strLt_trans h1 h2
            rw [hacf] at this
            exact absurd this (by simp [strLt_irrefl])
          · simp [violationLess, hab, Ne.symm haf, haf, hbc, Ne.symm hbf, hbf, hac, hacf, Ne.symm hacf] at h1 h2 ⊢
            exact strLt_trans h1 h2
    · have hwab : severityWeight a.Severity = severityWeight b.Severity := by rw [hab]
      simp [violationLess, hbc, Ne.symm hbc] at h2
      have hac : a.Severity ≠ c.Severity := fun h => hbc (hab.symm.trans h)
      simp [violationLess, hac, Ne.symm hac]
      omega
  · by_cases hbc : b.Severity = c.Severity
    · have hwbc : severityWeight b.Severity = severityWeight c.Severity := by rw [hbc]
      simp [violationLess, hab, Ne.symm hab] at h1
      have hac : a.Severity ≠ c.Severity := fun h => hab (h.trans hbc.symm)
      simp [violationLess, hac, Ne.symm hac]
      omega
    · simp [violationLess, hab, Ne.symm hab] at h1
      simp [violationLess, hbc, Ne.symm hbc] at h2
      by_cases hac : a.Severity = c.Severity
      · have : severityWeight a.Severity = severityWeight c.Severity := by rw [hac]
        omega
      · simp [violationLess, hac, Ne.symm hac]
        omega

theorem violationLE_total (a b : Violation) :
    violationLE a b = true ∨ violationLE b a = true := by
  by_cases h : violationLess b a = true
  · right
    simp [violationLE, violationLess_asymm h]
  · left
    simp [violationLE]
    exact Bool.not_eq_true _ ▸ (Bool.eq_false_iff.mpr (fun he => h he))

theorem insertViolation_perm (a : Violation) (l : List Violation) :
    (insertViolation a l).Perm (a :: l) := by
  induction l with
  | nil => exact List.Perm.refl _
  | cons b t ih =>
    by_cases h : violationLE a b = true
    · simp [insertViolation, h]
    · simp [insertViolation, h]
      exact (ih.cons b).trans (List.Perm.swap a b t)

theorem sortViolations_perm (l : List Violation) :
    (sortViolations l).Perm l := by
  induction l with
  | nil => exact List.Perm.refl _
  | cons a t ih =>
    exact (insertViolation_perm a (sortViolations t)).trans (ih.cons a)

theorem mem_sortViolations {x : Violation} {l : List Violation} :
    x ∈ sortViolations l ↔ x ∈ l :=
  (sortViolations_perm l).mem_iff
theorem violationLE_trans_local {a b c : Violation}
    (hab : a ≠ b → violationLess a b = true ∨ violationLess b a = true)
    (hbc : b ≠ c → violationLess b c = true ∨ violationLess c b = true)
    (h1 : violationLE a b = true) (h2 : violationLE b c = true) :
    violationLE a c = true := by
  by_cases heab : a = b
  · exact heab ▸ h2
  by_cases hebc : b = c
  · exact hebc ▸ h1
  have hab' : violationLess a b = true := by
    rcases hab heab with h | h
    · exact h
    · exact absurd h1 (by simp [violationLE, h])
  have hbc' : violationLess b c = true := by
    rcases hbc hebc with h | h
    · exact h
    · exact absurd h2 (by simp [violationLE, h])
  simp [violationLE, violationLess_asymm (violationLess_trans hab' hbc')]

theorem pairwise_insertViolation {a : Violation} {l : List Violation}
    (hl : l.Pairwise (fun x y => violationLE x y = true))
    (hcomp : ∀ x ∈ a :: l, ∀ y ∈ a :: l, x ≠ y →
      violationLess x y = true ∨ violationLess y x = true) :
    (insertViolation a l).Pairwise (fun x y => violationLE x y = true) := by
  induction l with
  | nil => simp [insertViolation]
  | cons b t ih =>
    rcases List.pairwise_cons.mp hl with ⟨hbt, ht⟩
    by_cases h : violationLE a b = true
    · simp only [insertViolation, h, if_pos]
      refine List.pairwise_cons.mpr ⟨?_, hl⟩
      intro y hy
      rcases List.mem_cons.mp hy with rfl | hyt
      · exact h
      · refine violationLE_trans_local ?_ ?_ h (hbt y hyt)
        · intro hne
          exact hcomp a (by simp) b (by simp) hne
        · intro hne
          exact hcomp b (by simp) y (by simp [hyt]) hne
    · simp only [insertViolation, h, if_neg, Bool.not_eq_true]
      have hba : violationLE b a = true := by
        rcases violationLE_total a b with h' | h'
        · exact absurd h' h
        · exact h'
      refine List.pairwise_cons.mpr ⟨?_, ?_⟩
      · intro y hy
        have : y = a ∨ y ∈ t := by
          have := (insertViolation_perm a t).mem_iff.mp hy
          simpa using this
        rcases this with rfl | hyt
        · exact hba
        · exact hbt y hyt
      · refine ih ht ?_
        intro x hx y hy hxy
        have hx' : x ∈ a :: b :: t := by
          rcases List.mem_cons.mp hx with rfl | hmem
          · simp
          · simp [hmem]
        have hy' : y ∈ a :: b :: t := by
          rcases List.mem_cons.mp hy with rfl | hmem
          · simp
          · simp [hmem]
        exact hcomp x hx' y hy' hxy

theorem sortViolations_pairwise {l : List Violation} (h : NoTies l) :
    (sortViolations l).Pairwise (fun x y => violationLE x y = true) := by
  induction l with
  | nil => simp [sortViolations]
  | cons a t ih =>
    refine pairwise_insertViolation (ih ?_) ?_
    · intro x hx y hy hxy
      exact h x (by simp [hx]) y (by simp [hy]) hxy
    · intro x hx y hy hxy
      have hx' : x ∈ a :: t := by
        rcases List.mem_cons.mp hx with rfl | hmem
        · simp
        · simp [mem_sortViolations.mp hmem]
      have hy' : y ∈ a :: t := by
        rcases List.mem_cons.mp hy with rfl | hmem
        · simp
        · simp [mem_sortViolations.mp hmem]
      exact h x hx' y hy' hxy

theorem sorted_perm_eq :
    ∀ {l₁ l₂ : List Violation}, l₁.Perm l₂ →
    l₁.Pairwise (fun x y => violationLE x y = true) →
    l₂.Pairwise (fun x y => violationLE x y = true) →
    NoTies l₁ →
    l₁ = l₂
  | [], l₂, hperm, _, _, _ => hperm.nil_eq
  | a :: t₁, [], hperm, _, _, _ => absurd hperm.symm.nil_eq (by simp)
  | a :: t₁, b :: t₂, hperm, hp₁, hp₂, hcomp => by
    by_cases hab : a = b
    · subst hab
      have htail : t₁.Perm t₂ := hperm.cons_inv
      have h1 := (List.pairwise_cons.mp hp₁).2
      have h2 := (List.pairwise_cons.mp hp₂).2
      have hc : NoTies t₁ := fun x hx y hy hxy =>
        hcomp x (by simp [hx]) y (by simp [hy]) hxy
      rw [sorted_perm_eq htail h1 h2 hc]
    · exfalso
      have hat2 : a ∈ t₂ := by
        have := hperm.mem_iff.mp (List.mem_cons_self a t₁)
        rcases List.mem_cons.mp this with h | h
        · exact absurd h hab
        · exact h
      have hbt1 : b ∈ t₁ := by
        have := hperm.mem_iff.mpr (List.mem_cons_self b t₂)
        rcases List.mem_cons.mp this with h | h
        · exact absurd h.symm hab
        · exact h
      have hle1 : violationLE a b = true := (List.pairwise_cons.mp hp₁).1 b hbt1
      have hle2 : violationLE b a = true := (List.pairwise_cons.mp hp₂).1 a hat2
      rcases hcomp a (by simp) b (by simp [hbt1]) hab with h | h
      · exact absurd hle2 (by simp [violationLE, h])
      · exact absurd hle1 (by simp [violationLE, h])

/-! ## Claim C6 and C10: the reporter sort -/

/-- C6 counterexample: two violations that agree on severity, file and
rule ID but differ in message are tied under the comparator, so the two
orderings of the same two-element multiset are both sorted and the sort
maps them to different output lists — the output is not independent of
the input permutation. -/
theorem C6_counterexample :
    ([tiedViolationA, tiedViolationB].Perm [tiedViolationB, tiedViolationA]) ∧
    sortViolations [tiedViolationA, tiedViolationB] ≠
      sortViolations [tiedViolationB, tiedViolationA] :=
  ⟨List.Perm.swap tiedViolationB tiedViolationA [], by decide⟩

/-- C6 (amended): the reported list is ordered by the comparator
(severity weight descending, then file ascending, then rule ID
ascending), and it is identical for any permutation of the input
violation list provided no two distinct violations of the list are tied
under the comparator, i.e. none agree simultaneously on severity weight,
file and rule ID. -/
theorem C6_theorem (l₁ l₂ : List Violation) (hperm : l₁.Perm l₂) (hties : NoTies l₁) :
    sortViolations l₁ = sortViolations l₂ ∧
    (sortViolations l₁).Pairwise (fun x y => violationLE x y = true) := by
  have hties₂ : NoTies l₂ := fun x hx y hy hxy =>
    hties x (hperm.mem_iff.mpr hx) y (hperm.mem_iff.mpr hy) hxy
  have hp₁ := sortViolations_pairwise hties
  have hp₂ := sortViolations_pairwise hties₂
  have hp : (sortViolations l₁).Perm (sortViolations l₂) :=
    (sortViolations_perm l₁).trans (hperm.trans (sortViolations_perm l₂).symm)
  have hcomp : NoTies (sortViolations l₁) := fun x hx y hy hxy =>
    hties x (mem_sortViolations.mp hx) y (mem_sortViolations.mp hy) hxy
  exact ⟨sorted_perm_eq hp hp₁ hp₂ hcomp, hp₁⟩

/-- C6 witness: the amended property at a concrete two-element list with
distinct severities. -/
theorem C6_witness :
    sortViolations [sevDemoA, sevDemoB] = sortViolations [sevDemoB, sevDemoA] ∧
    (sortViolations [sevDemoA, sevDemoB]).Pairwise (fun x y => violationLE x y = true) :=
  C6_theorem [sevDemoA, sevDemoB] [sevDemoB, sevDemoA]
    (List.Perm.swap sevDemoB sevDemoA []) (by unfold NoTies; decide)

/-- C10: `Reporter.Report` only permutes its input slice; the output of
the sort is a permutation of the input, so the multiset of `Violation`
records — every field included — is unchanged. -/
theorem C10_theorem (l : List Violation) : (sortViolations l).Perm l :=
  sortViolations_perm l

/-! ## Claim C2: rule selection -/

/-- C2: with a non-empty enable list the active set is exactly the
registry filtered by membership in the parsed enable set — the disable
list does not occur in the result, and unknown identifiers simply fail
the membership test without any error path; with an empty enable list the
active set is the registry minus the parsed disable set. -/
theorem C2_theorem (reg : List Rule) (enable disable : String) :
    (enable ≠ "" →
      selectRulesFrom reg enable disable =
        reg.filter (fun r => (parseRuleList enable).contains r.id)) ∧
    (enable = "" →
      selectRulesFrom reg enable disable =
        reg.filter (fun r => !((parseRuleList disable).contains r.id))) := by
  constructor
  · intro h
    simp [selectRulesFrom, h]
  · intro h
    subst h
    by_cases hd : disable = ""
    · subst hd
      simp [selectRulesFrom, parseRuleList]
    · simp [selectRulesFrom, hd]

/-- C2 witness: a concrete enable list holding one known and one unknown
identifier, with a non-trivial disable list. -/
theorem C2_witness :
    selectRulesFrom GetAllRules "ODH-OLM-001, BOGUS-ID" "ODH-OLM-004" =
      GetAllRules.filter (fun r => (parseRuleList "ODH-OLM-001, BOGUS-ID").contains r.id) :=
  (C2_theorem GetAllRules "ODH-OLM-001, BOGUS-ID" "ODH-OLM-004").1 (by decide)

/-! ## Claim C3: exit status -/

/-- C3: for a completed run the process exit status is non-zero iff the
violation list holds at least one error-severity violation; a list of
only warnings and infos exits zero whatever the `--no-warnings` flag. -/
theorem C3_theorem (violations : List Violation) (noWarnings : Bool) :
    deriveExitCode violations noWarnings ≠ 0 ↔
      ∃ v ∈ violations, v.Severity = severityError := by
  have hiff : hasErrors violations = true ↔ ∃ v ∈ violations, v.Severity = severityError := by
    simp [hasErrors, List.any_eq_true]
  have hsum : reportSummaryFails violations = true ↔
      ∃ v ∈ violations, v.Severity = severityError := by
    simp [reportSummaryFails, summaryErrorCount, List.countP_pos_iff]
  by_cases h : hasErrors violations = true
  · have hyes := hiff.mp h
    have hfails : reportSummaryFails violations = true := hsum.mpr hyes
    simp [deriveExitCode, h, hfails, hyes]
  · have h' : hasErrors violations = false := Bool.not_eq_true _ ▸ (by simpa using h)
    have hno : ¬ ∃ v ∈ violations, v.Severity = severityError := fun hc => h (hiff.mpr hc)
    have hfails : reportSummaryFails violations = false := by
      by_cases hf : reportSummaryFails violations = true
      · exact absurd (hsum.mp hf) hno
      · simpa using hf
    simp [deriveExitCode, h', hfails, hno]

/-! ## Claim C7: all-or-nothing loading -/

theorem loadManifestFile_isOk (b : Bundle) (f : ManifestFile) :
    isOkE (loadManifestFile b f) = routeOk f := by
  unfold loadManifestFile routeOk
  cases hb : f.basic with
  | error e => simp [isOkE]
  | ok h =>
    by_cases h1 : h.kind == "ClusterServiceVersion"
    · simp only [h1, if_pos]
      cases f.asCSV <;> simp [isOkE]
    · simp only [h1, if_neg, Bool.false_eq_true, not_false_eq_true]
      by_cases h2 : h.kind == "CustomResourceDefinition"
      · simp only [h2, if_pos]
        cases f.asCRD <;> simp [isOkE]
      · simp only [h2, if_neg, Bool.false_eq_true, not_false_eq_true]
        cases f.asResource <;> simp [isOkE]

theorem loadManifestsLoop_isOk (files : List ManifestFile) :
    ∀ b : Bundle, isOkE (loadManifestsLoop files b) = files.all fileOk := by
  induction files with
  | nil => intro b; simp [loadManifestsLoop, isOkE]
  | cons f fs ih =>
    intro b
    by_cases hs : shouldProcess f = true
    · simp only [loadManifestsLoop, hs, if_pos]
      cases hr : loadManifestFile b f with
      | error e =>
        have hro : routeOk f = false := by rw [← loadManifestFile_isOk b f, hr]; rfl
        simp [isOkE, List.all_cons, fileOk, hs, hro]
      | ok b2 =>
        have hro : routeOk f = true := by rw [← loadManifestFile_isOk b f, hr]; rfl
        simp [ih b2, List.all_cons, fileOk, hs, hro]
    · have hs' : shouldProcess f = false := by simpa using hs
      simp [loadManifestsLoop, hs', ih b, List.all_cons, fileOk]

/-- C7: `LoadBundle` succeeds exactly when the root exists, the
annotations stage is clean, the manifests directory is present and every
processed manifest file routes cleanly; in every other case it returns
`Except.error` — and an `Except` value carries either an error or a fully
constructed `Bundle`, never both, so no rule ever sees a partial bundle. -/
theorem C7_theorem (d : BundleDir) :
    isOkE (LoadBundle d) = (d.rootExists && annotationsOk d && manifestsOk d) := by
  unfold LoadBundle
  by_cases hr : d.rootExists = true
  · simp only [hr, Bool.not_true, Bool.false_eq_true, if_false, Bool.true_and]
    cases ha : d.annotations with
    | none =>
      simp only [loadAnnotations, ha, annotationsOk]
      cases hm : d.manifestsDir with
      | none => simp [loadManifests, hm, manifestsOk, isOkE]
      | some files =>
        simp only [loadManifests, hm, manifestsOk]
        exact loadManifestsLoop_isOk files _
    | some o =>
      cases o with
      | error e =>
        simp [loadAnnotations, ha, annotationsOk, isOkE]
      | ok a =>
        simp only [loadAnnotations, ha, annotationsOk, isOkE]
        cases hm : d.manifestsDir with
        | none => simp [loadManifests, hm, manifestsOk, isOkE]
        | some files =>
          simp only [loadManifests, hm, manifestsOk]
          exact loadManifestsLoop_isOk files _
  · have hr' : d.rootExists = false := by simpa using hr
    simp [hr', isOkE]

/-! ## Claim C8: the PDB maxUnavailable rule -/

theorem pdbStep_eq (r : Resource) :
    (if r.Kind != "PodDisruptionBudget" then []
     else
       match r.Spec.lookup "maxUnavailable" with
       | some v => if isZeroValue v then [pdbMaxViolation r] else []
       | none => []) =
    (if pdbZeroTarget r then [pdbMaxViolation r] else []) := by
  by_cases hk : r.Kind == "PodDisruptionBudget"
  · have hk' : r.Kind = "PodDisruptionBudget" := by simpa using hk
    cases hl : r.Spec.lookup "maxUnavailable" with
    | none => simp [hk, hk', hl, pdbZeroTarget]
    | some v =>
      by_cases hz : isZeroValue v = true
      · simp [hk, hk', hl, hz, pdbZeroTarget]
      · simp [hk, hk', hl, hz, pdbZeroTarget]
  · have hk' : ¬ r.Kind = "PodDisruptionBudget" := by simpa using hk
    simp [hk, hk', pdbZeroTarget]

theorem pdbValidate_eq_filterMap (l : List Resource) :
    (l.flatMap (fun r =>
      if r.Kind != "PodDisruptionBudget" then []
      else
        match r.Spec.lookup "maxUnavailable" with
        | some v => if isZeroValue v then [pdbMaxViolation r] else []
        | none => [])) =
    (l.filter pdbZeroTarget).map pdbMaxViolation := by
  induction l with
  | nil => rfl
  | cons r rs ih =>
    rw [List.flatMap_cons, pdbStep_eq, ih, List.filter_cons]
    by_cases ht : pdbZeroTarget r = true
    · simp [ht]
    · simp [ht]

/-- C8: ODH-OLM-004 emits exactly one violation per generic resource of
kind `PodDisruptionBudget` whose `maxUnavailable` field is zero under the
normalisation (integer 0, float 0, trimmed strings `0` and `0%`), each of
error severity, and nothing for other values or other kinds. -/
theorem C8_theorem (b : Bundle) :
    pdbMaxUnavailableValidate b =
      (b.OtherResources.filter pdbZeroTarget).map pdbMaxViolation ∧
    (pdbMaxUnavailableValidate b).all (fun v => v.Severity == severityError) = true ∧
    isZeroValue (.yint 0) = true ∧ isZeroValue (.yfloat 0) = true ∧
    isZeroValue (.ystr "0") = true ∧ isZeroValue (.ystr " 0% ") = true ∧
    isZeroValue (.ystr "1") = false := by
  have he : pdbMaxUnavailableValidate b =
      (b.OtherResources.filter pdbZeroTarget).map pdbMaxViolation :=
    pdbValidate_eq_filterMap b.OtherResources
  refine ⟨he, ?_, by decide, by decide, by decide, by decide, by decide⟩
  rw [he]
  simp [List.all_eq_true]
  intro v r hm hzt hveq
  rw [← hveq]
  rfl

/-! ## Claim C9: absence of the CSV is nothing-to-check -/

/-- C9: every rule whose check reads the primary resource returns the
empty violation list when `CSV` is absent, and every registered rule
returns the empty list on a loader-shaped bundle with no CSV, CRDs,
annotations or generic resources; all the `Validate` embeddings are total
functions, so no well-formed bundle makes any of them fault. -/
theorem C9_theorem :
    (∀ b : Bundle, b.CSV = none →
      minKubeVersionValidate b = [] ∧ webhookOperatorResourcesValidate b = [] ∧
      conversionWebhookAllNamespacesValidate b = [] ∧
      conversionPreserveUnknownFieldsValidate b = []) ∧
    GetAllRules.all (fun r => ruleValidateById r.id emptyBundle == []) = true := by
  constructor
  · intro b h
    refine ⟨?_, ?_, ?_, ?_⟩ <;>
      simp [minKubeVersionValidate, webhookOperatorResourcesValidate,
        conversionWebhookAllNamespacesValidate, conversionPreserveUnknownFieldsValidate, h]
  · decide

theorem C9_witness :
    minKubeVersionValidate emptyBundle = [] ∧
    webhookOperatorResourcesValidate emptyBundle = [] ∧
    conversionWebhookAllNamespacesValidate emptyBundle = [] ∧
    conversionPreserveUnknownFieldsValidate emptyBundle = [] :=
  C9_theorem.1 emptyBundle rfl

/-! ## Claim C1: the error-demotion structural pattern -/

theorem children_sizeOf_lt {c n : Node} (h : c ∈ children n) : sizeOf c < sizeOf n := by
  cases n with
  | ident s => simp [children] at h
  | binary op x y =>
    rcases (by simpa [children] using h : c = x ∨ c = y) with rfl | rfl <;> simp <;> omega
  | call fn args =>
    rcases (by simpa [children] using h : c = fn ∨ c ∈ args) with rfl | hm
    · simp; omega
    · have := List.sizeOf_lt_of_mem hm
      simp; omega
  | selector recv sel =>
    rcases (by simpa [children] using h : c = recv) with rfl
    simp; omega
  | assign d lhs rhs =>
    rcases (by simpa [children] using h : c ∈ lhs ∨ c ∈ rhs) with hm | hm <;>
      have := List.sizeOf_lt_of_mem hm <;> simp <;> omega
  | ifS ini cond thenB elseB =>
    have h' : c ∈ ini.toList ∨ c = cond ∨ c = thenB ∨ c ∈ elseB.toList := by
      simpa [children] using h
    have hini : ∀ o : Option Node, c ∈ o.toList → sizeOf c < 1 + sizeOf o := by
      intro o ho
      cases o with
      | none => simp at ho
      | some m =>
        simp at ho
        subst ho
        simp
        omega
    rcases h' with hm | rfl | rfl | hm
    · have := hini ini hm
      simp
      omega
    · simp; omega
    · simp; omega
    · have := hini elseB hm
      simp
      omega
  | ret results =>
    have := List.sizeOf_lt_of_mem (by simpa [children] using h : c ∈ results)
    simp; omega
  | block stmts =>
    have := List.sizeOf_lt_of_mem (by simpa [children] using h : c ∈ stmts)
    simp; omega
  | exprStmt e =>
    rcases (by simpa [children] using h : c = e) with rfl
    simp
  | leaf => simp [children] at h

/-- Strong induction along the child relation. -/
theorem node_subInd {P : Node → Prop} (h : ∀ n, (∀ c ∈ children n, P c) → P n) :
    ∀ n, P n
  | n => h n (fun c hc => node_subInd h c)
termination_by n => sizeOf n
decreasing_by exact children_sizeOf_lt hc

theorem nodesHaveLogCall_eq_any (l : List Node) :
    nodesHaveLogCall l = l.any nodeHasLogCall := by
  induction l with
  | nil => rfl
  | cons n ns ih => simp [nodesHaveLogCall, ih]

theorem optHasLogCall_eq_any (o : Option Node) :
    optHasLogCall o = o.toList.any nodeHasLogCall := by
  cases o <;> simp [optHasLogCall]

theorem nodeHasLogCall_children (n : Node) :
    nodeHasLogCall n = (isLogCallNode n || (children n).any nodeHasLogCall) := by
  cases n <;>
    simp [nodeHasLogCall, isLogCallNode, children, nodesHaveLogCall_eq_any,
      optHasLogCall_eq_any, Bool.or_assoc, List.any_append]

theorem nodesHaveErrReturn_eq_any (l : List Node) :
    nodesHaveErrReturn l = l.any nodeHasErrReturn := by
  induction l with
  | nil => rfl
  | cons n ns ih => simp [nodesHaveErrReturn, ih]

theorem optHasErrReturn_eq_any (o : Option Node) :
    optHasErrReturn o = o.toList.any nodeHasErrReturn := by
  cases o <;> simp [optHasErrReturn]

theorem nodeHasErrReturn_children (n : Node) :
    nodeHasErrReturn n = (isErrReturnNode n || (children n).any nodeHasErrReturn) := by
  cases n <;>
    simp [nodeHasErrReturn, isErrReturnNode, children, nodesHaveErrReturn_eq_any,
      optHasErrReturn_eq_any, Bool.or_assoc, List.any_append]

/-- A subtree scan satisfying the one-step unfolding computes exactly
"some node of the subtree satisfies the local predicate". -/
theorem scan_iff_occurs {f p : Node → Bool}
    (hf : ∀ n, f n = (p n || (children n).any f)) :
    ∀ n, f n = true ↔ ∃ m, Occurs m n ∧ p m = true := by
  refine node_subInd (fun n ih => ?_)
  constructor
  · intro hfn
    rw [hf] at hfn
    rcases Bool.or_eq_true_iff.mp hfn with hp | hany
    · exact ⟨n, Occurs.refl n, hp⟩
    · obtain ⟨c, hc, hfc⟩ := List.any_eq_true.mp hany
      obtain ⟨m, hocc, hpm⟩ := (ih c hc).mp hfc
      exact ⟨m, Occurs.child hc hocc, hpm⟩
  · rintro ⟨m, hocc, hpm⟩
    cases hocc with
    | refl => rw [hf]; exact Bool.or_eq_true_iff.mpr (Or.inl hpm)
    | child hc hocc2 =>
      rw [hf]
      refine Bool.or_eq_true_iff.mpr (Or.inr ?_)
      exact List.any_eq_true.mpr ⟨_, hc, (ih _ hc).mpr ⟨m, hocc2, hpm⟩⟩

theorem nodeHasLogCall_iff (n : Node) :
    nodeHasLogCall n = true ↔ ∃ m, Occurs m n ∧ isLogCallNode m = true :=
  scan_iff_occurs nodeHasLogCall_children n

theorem nodeHasErrReturn_iff (n : Node) :
    nodeHasErrReturn n = true ↔ ∃ m, Occurs m n ∧ isErrReturnNode m = true :=
  scan_iff_occurs nodeHasErrReturn_children n

theorem isNilIdent_iff (m : Node) : isNilIdent m = true ↔ m = .ident "nil" := by
  cases m <;> simp [isNilIdent]

theorem isErrIdent_iff (m : Node) :
    isErrIdent m = true ↔ ∃ s, m = .ident s ∧ strContains s "err" = true := by
  cases m <;> simp [isErrIdent]

theorem nil_not_err : strContains "nil" "err" = false := by decide

theorem isErrCondition_iff (cond : Node) : isErrCondition cond = true ↔ C1CondOk cond := by
  constructor
  · intro h
    cases cond with
    | binary op x y =>
      simp only [isErrCondition, Bool.and_eq_true, Bool.or_eq_true, beq_iff_eq] at h
      obtain ⟨⟨hop, hnil⟩, herr⟩ := h
      rcases hnil with hy | hx
      · rcases herr with hex | hey
        · obtain ⟨en, rfl, hen⟩ := isErrIdent_iff x |>.mp hex
          exact ⟨op, en, hop, hen, Or.inr (by rw [isNilIdent_iff y |>.mp hy])⟩
        · rw [isNilIdent_iff y |>.mp hy] at hey
          simp [isErrIdent, nil_not_err] at hey
      · rcases herr with hex | hey
        · rw [isNilIdent_iff x |>.mp hx] at hex
          simp [isErrIdent, nil_not_err] at hex
        · obtain ⟨en, rfl, hen⟩ := isErrIdent_iff y |>.mp hey
          exact ⟨op, en, hop, hen, Or.inl (by rw [isNilIdent_iff x |>.mp hx])⟩
    | ident s => simp [isErrCondition] at h
    | call fn args => simp [isErrCondition] at h
    | selector recv sel => simp [isErrCondition] at h
    | assign d lhs rhs => simp [isErrCondition] at h
    | ifS i c t e => simp [isErrCondition] at h
    | ret rs => simp [isErrCondition] at h
    | block ss => simp [isErrCondition] at h
    | exprStmt e => simp [isErrCondition] at h
    | leaf => simp [isErrCondition] at h
  · rintro ⟨op, en, hop, hen, hc | hc⟩ <;> subst hc <;>
      rcases hop with rfl | rfl <;>
      simp [isErrCondition, isNilIdent, isErrIdent, hen]

theorem C1Spec_ifS (i cond thenB e : Node) :
    C1Spec (.ifS (some i) cond thenB (some e)) ↔
      C1InitOk i ∧ C1CondOk cond ∧ C1ElseLogs e ∧ ¬ C1ElseReturnsErr e := by
  constructor
  · rintro ⟨ini, c, t, eb, heq, h1, h2, h3, h4⟩
    injection heq with hi hc ht he
    rw [Option.some.injEq] at hi he
    subst hi
    subst hc
    subst he
    exact ⟨h1, h2, h3, h4⟩
  · rintro ⟨h1, h2, h3, h4⟩
    exact ⟨i, cond, thenB, e, rfl, h1, h2, h3, h4⟩

theorem isErrorDemotionPattern_iff (n : Node) :
    isErrorDemotionPattern n = true ↔ C1Spec n := by
  cases n with
  | ifS ini cond thenB elseB =>
    cases ini with
    | none =>
      constructor
      · intro h
        simp [isErrorDemotionPattern] at h
      · rintro ⟨ini2, c, t, eb, heq, -⟩
        injection heq with h1 h2 h3 h4
        exact Option.noConfusion h1
    | some i =>
      cases i with
      | assign d lhs rhs =>
        cases d with
        | false =>
          constructor
          · intro h
            simp [isErrorDemotionPattern] at h
          · rintro ⟨ini2, c, t, eb, heq, hinit, -⟩
            injection heq with h1 h2 h3 h4
            rw [Option.some.injEq] at h1
            subst h1
            obtain ⟨lhs2, rhs2, nm, heq2, -⟩ := hinit
            injection heq2 with hd hL hR
        | true =>
          cases elseB with
          | none =>
            constructor
            · intro h
              simp [isErrorDemotionPattern] at h
            · rintro ⟨ini2, c, t, eb, heq, -⟩
              injection heq with h1 h2 h3 h4
              exact Option.noConfusion h4
          | some e =>
            rw [C1Spec_ifS]
            simp only [isErrorDemotionPattern, Bool.and_eq_true, decide_eq_true_eq,
              Option.isSome_some, Bool.not_eq_true']
            constructor
            · rintro ⟨⟨⟨⟨hlen, hlast⟩, hcond⟩, -⟩, hlog, hret⟩
              refine ⟨?_, isErrCondition_iff cond |>.mp hcond, nodeHasLogCall_iff e |>.mp hlog, ?_⟩
              · cases hl : lhs.getLast? with
                | none => rw [hl] at hlast; simp at hlast
                | some m =>
                  cases m with
                  | ident nm =>
                    rw [hl] at hlast
                    simp only [Bool.or_eq_true, beq_iff_eq] at hlast
                    exact ⟨lhs, rhs, nm, rfl, hlen, hl, hlast⟩
                  | binary op x y => rw [hl] at hlast; simp at hlast
                  | call fn args => rw [hl] at hlast; simp at hlast
                  | selector recv sel => rw [hl] at hlast; simp at hlast
                  | assign d2 l2 r2 => rw [hl] at hlast; simp at hlast
                  | ifS i2 c2 t2 e2 => rw [hl] at hlast; simp at hlast
                  | ret rs => rw [hl] at hlast; simp at hlast
                  | block ss => rw [hl] at hlast; simp at hlast
                  | exprStmt ex => rw [hl] at hlast; simp at hlast
                  | leaf => rw [hl] at hlast; simp at hlast
              · intro hc
                have hb := nodeHasErrReturn_iff e |>.mpr hc
                rw [hb] at hret
                exact absurd hret (by simp)
            · rintro ⟨⟨lhs2, rhs2, nm, heq, hlen, hlast, hname⟩, hcond, hlog, hret⟩
              injection heq with hd hL hR
              subst hL
              refine ⟨⟨⟨⟨hlen, ?_⟩, isErrCondition_iff cond |>.mpr hcond⟩, trivial⟩,
                nodeHasLogCall_iff e |>.mpr hlog, ?_⟩
              · rw [hlast]
                simp only [Bool.or_eq_true, beq_iff_eq]
                exact hname
              · by_cases hb : nodeHasErrReturn e = true
                · exact absurd (nodeHasErrReturn_iff e |>.mp hb) hret
                · simpa using hb
      | ident s =>
        constructor
        · intro h
          simp [isErrorDemotionPattern] at h
        · rintro ⟨ini2, c, t, eb, heq, hinit, -⟩
          injection heq with h1 h2 h3 h4
          rw [Option.some.injEq] at h1
          subst h1
          obtain ⟨lhs2, rhs2, nm, heq2, -⟩ := hinit
          exact Node.noConfusion heq2
      | binary op x y =>
        constructor
        · intro h
          simp [isErrorDemotionPattern] at h
        · rintro ⟨ini2, c, t, eb, heq, hinit, -⟩
          injection heq with h1 h2 h3 h4
          rw [Option.some.injEq] at h1
          subst h1
          obtain ⟨lhs2, rhs2, nm, heq2, -⟩ := hinit
          exact Node.noConfusion heq2
      | call fn args =>
        constructor
        · intro h
          simp [isErrorDemotionPattern] at h
        · rintro ⟨ini2, c, t, eb, heq, hinit, -⟩
          injection heq with h1 h2 h3 h4
          rw [Option.some.injEq] at h1
          subst h1
          obtain ⟨lhs2, rhs2, nm, heq2, -⟩ := hinit
          exact Node.noConfusion heq2
      | selector recv sel =>
        constructor
        · intro h
          simp [isErrorDemotionPattern] at h
        · rintro ⟨ini2, c, t, eb, heq, hinit, -⟩
          injection heq with h1 h2 h3 h4
          rw [Option.some.injEq] at h1
          subst h1
          obtain ⟨lhs2, rhs2, nm, heq2, -⟩ := hinit
          exact Node.noConfusion heq2
      | ifS i2 c2 t2 e2 =>
        constructor
        · intro h
          simp [isErrorDemotionPattern] at h
        · rintro ⟨ini2, c, t, eb, heq, hinit, -⟩
          injection heq with h1 h2 h3 h4
          rw [Option.some.injEq] at h1
          subst h1
          obtain ⟨lhs2, rhs2, nm, heq2, -⟩ := hinit
          exact Node.noConfusion heq2
      | ret rs =>
        constructor
        · intro h
          simp [isErrorDemotionPattern] at h
        · rintro ⟨ini2, c, t, eb, heq, hinit, -⟩
          injection heq with h1 h2 h3 h4
          rw [Option.some.injEq] at h1
          subst h1
          obtain ⟨lhs2, rhs2, nm, heq2, -⟩ := hinit
          exact Node.noConfusion heq2
      | block ss =>
        constructor
        · intro h
          simp [isErrorDemotionPattern] at h
        · rintro ⟨ini2, c, t, eb, heq, hinit, -⟩
          injection heq with h1 h2 h3 h4
          rw [Option.some.injEq] at h1
          subst h1
          obtain ⟨lhs2, rhs2, nm, heq2, -⟩ := hinit
          exact Node.noConfusion heq2
      | exprStmt ex =>
        constructor
        · intro h
          simp [isErrorDemotionPattern] at h
        · rintro ⟨ini2, c, t, eb, heq, hinit, -⟩
          injection heq with h1 h2 h3 h4
          rw [Option.some.injEq] at h1
          subst h1
          obtain ⟨lhs2, rhs2, nm, heq2, -⟩ := hinit
          exact Node.noConfusion heq2
      | leaf =>
        constructor
        · intro h
          simp [isErrorDemotionPattern] at h
        · rintro ⟨ini2, c, t, eb, heq, hinit, -⟩
          injection heq with h1 h2 h3 h4
          rw [Option.some.injEq] at h1
          subst h1
          obtain ⟨lhs2, rhs2, nm, heq2, -⟩ := hinit
          exact Node.noConfusion heq2
  | ident s => simp [isErrorDemotionPattern, C1Spec]
  | binary op x y => simp [isErrorDemotionPattern, C1Spec]
  | call fn args => simp [isErrorDemotionPattern, C1Spec]
  | selector recv sel => simp [isErrorDemotionPattern, C1Spec]
  | assign d lhs rhs => simp [isErrorDemotionPattern, C1Spec]
  | ret rs => simp [isErrorDemotionPattern, C1Spec]
  | block ss => simp [isErrorDemotionPattern, C1Spec]
  | exprStmt e => simp [isErrorDemotionPattern, C1Spec]
  | leaf => simp [isErrorDemotionPattern, C1Spec]

/-- C1: the detector yields exactly one candidate violation at a visited
if-statement iff: its initializer is a short-form declaration binding at
least two names whose last name contains `err` or is `_`; its condition
is an equality or inequality between literal `nil` and an identifier
containing `err` (either operand order); it has an else branch; the else
subtree holds at least one call with a log-like selector; and the else
subtree holds no return of an identifier containing `err`. -/
theorem C1_theorem (n : Node) : candidateReports n = 1 ↔ C1Spec n := by
  unfold candidateReports
  by_cases h : isErrorDemotionPattern n = true
  · simp [h, isErrorDemotionPattern_iff n |>.mp h]
  · have h2 : ¬ C1Spec n := fun hc => h (isErrorDemotionPattern_iff n |>.mpr hc)
    simp [h, h2]

/-! ## Claims C4 and C5: the suppression windows and the first-file scan -/

theorem scanNolint_iff (fidx : Nat) (L : Int) (cs : List Comment)
    (hcs : ∀ c ∈ cs, c.pos.file = fidx) :
    scanNolint fidx L cs = .ok true ↔
      ∃ c ∈ cs, (c.pos.line = L ∨ c.pos.line = L - 1) ∧ nolintTextMatch c.text = true := by
  induction cs with
  | nil => simp [scanNolint]
  | cons c rest ih =>
    have hc : c.pos.file = fidx := hcs c (by simp)
    have hrest : ∀ x ∈ rest, x.pos.file = fidx := fun x hx => hcs x (by simp [hx])
    simp only [scanNolint, fileLine, hc, beq_self_eq_true, if_pos]
    by_cases hw : ((c.pos.line == L || c.pos.line == L - 1) && nolintTextMatch c.text) = true
    · rw [if_pos hw]
      simp only [Bool.and_eq_true, Bool.or_eq_true, beq_iff_eq] at hw
      constructor
      · intro _
        exact ⟨c, by simp, hw.1, hw.2⟩
      · intro _
        rfl
    · have hw2 : ¬((c.pos.line = L ∨ c.pos.line = L - 1) ∧ nolintTextMatch c.text = true) := by
        rintro ⟨hwin, ht⟩
        apply hw
        simp only [Bool.and_eq_true, Bool.or_eq_true, beq_iff_eq]
        exact ⟨hwin, ht⟩
      rw [if_neg hw]
      rw [ih hrest]
      constructor
      · rintro ⟨x, hx, hp⟩
        exact ⟨x, by simp [hx], hp⟩
      · rintro ⟨x, hx, hp⟩
        rcases List.mem_cons.mp hx with rfl | hx2
        · exact absurd hp hw2
        · exact ⟨x, hx2, hp⟩

theorem scanNolint_isOk (fidx : Nat) (L : Int) (cs : List Comment)
    (hcs : ∀ c ∈ cs, c.pos.file = fidx) :
    ∃ b, scanNolint fidx L cs = .ok b := by
  induction cs with
  | nil => exact ⟨false, rfl⟩
  | cons c rest ih =>
    have hc : c.pos.file = fidx := hcs c (by simp)
    have hrest : ∀ x ∈ rest, x.pos.file = fidx := fun x hx => hcs x (by simp [hx])
    simp only [scanNolint, fileLine, hc, beq_self_eq_true, if_pos]
    by_cases hw : ((c.pos.line == L || c.pos.line == L - 1) && nolintTextMatch c.text) = true
    · rw [if_pos hw]
      exact ⟨true, rfl⟩
    · rw [if_neg hw]
      exact ih hrest

theorem scanResilience_iff (fidx : Nat) (L : Int) (cs : List Comment)
    (hcs : ∀ c ∈ cs, c.pos.file = fidx) :
    scanResilience fidx L cs = .ok true ↔
      ∃ c ∈ cs, (L - 3 ≤ c.pos.line ∧ c.pos.line < L) ∧ resilienceTextMatch c.text = true := by
  induction cs with
  | nil => simp [scanResilience]
  | cons c rest ih =>
    have hc : c.pos.file = fidx := hcs c (by simp)
    have hrest : ∀ x ∈ rest, x.pos.file = fidx := fun x hx => hcs x (by simp [hx])
    simp only [scanResilience, fileLine, hc, beq_self_eq_true, if_pos]
    by_cases hw : ((decide (L - 3 ≤ c.pos.line) && decide (c.pos.line < L)) &&
        resilienceTextMatch c.text) = true
    · rw [if_pos hw]
      simp only [Bool.and_eq_true, decide_eq_true_eq] at hw
      constructor
      · intro _
        exact ⟨c, by simp, ⟨hw.1.1, hw.1.2⟩, hw.2⟩
      · intro _
        rfl
    · have hw2 : ¬((L - 3 ≤ c.pos.line ∧ c.pos.line < L) ∧ resilienceTextMatch c.text = true) := by
        rintro ⟨hwin, ht⟩
        apply hw
        simp only [Bool.and_eq_true, decide_eq_true_eq]
        exact ⟨⟨hwin.1, hwin.2⟩, ht⟩
      rw [if_neg hw]
      rw [ih hrest]
      constructor
      · rintro ⟨x, hx, hp⟩
        exact ⟨x, by simp [hx], hp⟩
      · rintro ⟨x, hx, hp⟩
        rcases List.mem_cons.mp hx with rfl | hx2
        · exact absurd hp hw2
        · exact ⟨x, hx2, hp⟩

theorem scanResilience_isOk (fidx : Nat) (L : Int) (cs : List Comment)
    (hcs : ∀ c ∈ cs, c.pos.file = fidx) :
    ∃ b, scanResilience fidx L cs = .ok b := by
  induction cs with
  | nil => exact ⟨false, rfl⟩
  | cons c rest ih =>
    have hc : c.pos.file = fidx := hcs c (by simp)
    have hrest : ∀ x ∈ rest, x.pos.file = fidx := fun x hx => hcs x (by simp [hx])
    simp only [scanResilience, fileLine, hc, beq_self_eq_true, if_pos]
    by_cases hw : ((decide (L - 3 ≤ c.pos.line) && decide (c.pos.line < L)) &&
        resilienceTextMatch c.text) = true
    · rw [if_pos hw]
      exact ⟨true, rfl⟩
    · rw [if_neg hw]
      exact ih hrest

/-- C4: for a candidate located in the first file of the pass (the
analyzed file), whose comments carry first-file positions: the directive
scan fires exactly when a comment of that file lies on line `L` or `L-1`
and its text names the rule or is a bare ruleless `nolint`; the
justification scan fires exactly when such a comment lies in `[L-3, L-1]`
with a keyword; and a fired scan makes the detector report nothing. -/
theorem C4_theorem (pass : Pass) (f0 : FileAst) (frest : List FileAst)
    (pos : Pos) (s : Node)
    (hfiles : pass.files = f0 :: frest) (hpf : pos.file = 0)
    (hcs : ∀ c ∈ f0.comments, c.pos.file = 0) :
    (hasNolintComment pass pos = .ok true ↔
      ∃ c ∈ f0.comments, (c.pos.line = pos.line ∨ c.pos.line = pos.line - 1) ∧
        nolintTextMatch c.text = true) ∧
    (hasResilienceDoc pass pos = .ok true ↔
      ∃ c ∈ f0.comments, (pos.line - 3 ≤ c.pos.line ∧ c.pos.line < pos.line) ∧
        resilienceTextMatch c.text = true) ∧
    ((hasNolintComment pass pos = .ok true ∨ hasResilienceDoc pass pos = .ok true) →
      reportsViolation pass s pos = .ok false) := by
  have hcs' : ∀ c ∈ f0.comments, c.pos.file = pos.file := by
    intro c hc
    rw [hpf]
    exact hcs c hc
  have hn : hasNolintComment pass pos = scanNolint pos.file pos.line f0.comments := by
    unfold hasNolintComment
    rw [hfiles]
  have hr : hasResilienceDoc pass pos = scanResilience pos.file pos.line f0.comments := by
    unfold hasResilienceDoc
    rw [hfiles]
  refine ⟨?_, ?_, ?_⟩
  · rw [hn]
    exact scanNolint_iff pos.file pos.line f0.comments hcs'
  · rw [hr]
    exact scanResilience_iff pos.file pos.line f0.comments hcs'
  · intro hsup
    unfold reportsViolation
    by_cases hp : isErrorDemotionPattern s = true
    · rw [if_pos hp]
      rcases hsup with htrue | hres
      · rw [htrue]
      · obtain ⟨b, hb⟩ := scanNolint_isOk pos.file pos.line f0.comments hcs'
        rw [hn, hb]
        cases b with
        | true => rfl
        | false =>
          rw [hres]
          rfl
    · rw [if_neg hp]

theorem C4_witness :
    hasNolintComment demoSingleFilePass demoCandidatePos = .ok true ∧
    reportsViolation demoSingleFilePass demoPatternNode demoCandidatePos = .ok false := by
  have h := C4_theorem demoSingleFilePass ⟨[demoNolintComment]⟩ [] demoCandidatePos
    demoPatternNode rfl rfl (by decide)
  have hn : hasNolintComment demoSingleFilePass demoCandidatePos = .ok true := by
    apply h.1.mpr
    exact ⟨demoNolintComment, by decide, by decide, by decide⟩
  exact ⟨hn, h.2.2 (Or.inl hn)⟩

/-- C5 (failing run): a two-file pass whose second file holds the
candidate at line 10 and a rule-qualified directive at line 9 of that
same file; the scan reads only the first file, so the candidate is still
reported even though a suppressing comment sits in the candidate's own
file inside the `[L-1, L]` window. -/
theorem C5_theorem :
    reportsViolation demoTwoFilePass demoPatternNode demoSecondFilePos = .ok true ∧
    demoOtherFileComment ∈ (demoTwoFilePass.files.getD 1 ⟨[]⟩).comments ∧
    demoOtherFileComment.pos.file = demoSecondFilePos.file ∧
    demoOtherFileComment.pos.line = demoSecondFilePos.line - 1 ∧
    nolintTextMatch demoOtherFileComment.text = true :=
  ⟨rfl, by decide, by decide, by decide, by decide⟩
